import Mathlib

/-!
Verification of the two-stage document-ingestion pipeline
(`suwa-sh/local-RAG-backend`) against its natural-language specification.

The embedding is shallow: each Python function relevant to the claims is
translated into a Lean definition over explicit state.  The on-disk staging
directory of one source file (`ChunkFileManager`, per path) is modelled as a
`ChunkStore`: an association list `position ↦ chunk file`, an optional
metadata file, and an association list `index ↦ episode file`.  The wall
clock is modelled as a `Nat` of seconds passed explicitly where the Python
code calls `datetime.now()`.
-/

namespace LocalRag

/-- Association-list lookup, modelling "the file keyed `k` exists and has
this content" in a staging directory. -/
def lookupN {α : Type} : List (Nat × α) → Nat → Option α
  | [], _ => none
  | p :: rest, k => if p.fst = k then some p.snd else lookupN rest k

/-- Deleting the file keyed `k` (`Path.unlink`). -/
def eraseN {α : Type} (m : List (Nat × α)) (k : Nat) : List (Nat × α) :=
  m.filter (fun p => p.fst ≠ k)

/-- Writing the file keyed `k` (overwrites any previous content). -/
def insertN {α : Type} (m : List (Nat × α)) (k : Nat) (v : α) : List (Nat × α) :=
  (k, v) :: eraseN m k

theorem eraseN_cons_eq {α : Type} (p : Nat × α) (rest : List (Nat × α))
    (k : Nat) (hp : p.fst = k) : eraseN (p :: rest) k = eraseN rest k := by
  simp [eraseN, List.filter, hp]

theorem eraseN_cons_ne {α : Type} (p : Nat × α) (rest : List (Nat × α))
    (k : Nat) (hp : p.fst ≠ k) : eraseN (p :: rest) k = p :: eraseN rest k := by
  simp [eraseN, List.filter, hp]

theorem lookupN_eraseN_ne {α : Type} (m : List (Nat × α)) (k k' : Nat)
    (h : k ≠ k') : lookupN (eraseN m k) k' = lookupN m k' := by
  induction m with
  | nil => rfl
  | cons p rest ih =>
    by_cases hp : p.fst = k
    · rw [eraseN_cons_eq p rest k hp, ih]
      have h2 : p.fst ≠ k' := by rw [hp]; exact h
      simp [lookupN, h2]
    · rw [eraseN_cons_ne p rest k hp]
      by_cases hq : p.fst = k'
      · simp [lookupN, hq]
      · simp [lookupN, hq, ih]

theorem lookupN_eraseN_self {α : Type} (m : List (Nat × α)) (k : Nat) :
    lookupN (eraseN m k) k = none := by
  induction m with
  | nil => rfl
  | cons p rest ih =>
    by_cases hp : p.fst = k
    · rw [eraseN_cons_eq p rest k hp]; exact ih
    · rw [eraseN_cons_ne p rest k hp]
      simp [lookupN, hp, ih]

theorem lookupN_insertN_self {α : Type} (m : List (Nat × α)) (k : Nat) (v : α) :
    lookupN (insertN m k v) k = some v := by
  simp [insertN, lookupN]

theorem lookupN_insertN_ne {α : Type} (m : List (Nat × α)) (k k' : Nat) (v : α)
    (h : k ≠ k') : lookupN (insertN m k v) k' = lookupN m k' := by
  simp only [insertN, lookupN, h, if_neg]
  exact lookupN_eraseN_ne m k k' h

/-- `Episode` (src/domain/episode.py): registration-ready record.
`reference_time` is modelled as a `Nat` timestamp. -/
structure Episode where
  name : String
  body : String
  sourceDescription : String
  referenceTime : Nat
  episodeType : String
  groupId : String
deriving DecidableEq, Repr

/-- `Chunk` (src/domain/chunk.py).  `metadataPosition` models
`chunk.metadata["position"]`, the only metadata key the staging logic reads
(`save_chunks` keys each chunk file by it; the parser assigns the chunk's
index in the original document, `unstructured_document_parser._create_chunk`). -/
structure Chunk where
  id : String
  text : String
  metadataPosition : Nat
deriving DecidableEq, Repr

/-- The metadata file written by `ChunkFileManager.save_chunks`
(`created_at` carries no control flow and is omitted). -/
structure ChunkMetadata where
  originalFile : String
  totalChunks : Nat
  lastProcessedPosition : Int
  errorMessage : String
deriving DecidableEq, Repr

/-- The staging directory of one source path under `data/input_chunks`:
`chunk_<position>.json` files, an optional `metadata.json`, and
`episode_<index>.json` files. -/
structure ChunkStore where
  chunkFiles : List (Nat × Chunk)
  metadataFile : Option ChunkMetadata
  episodeFiles : List (Nat × Episode)
deriving DecidableEq, Repr

/-- A staging directory with no files at all (no prior checkpoint). -/
def ChunkStore.empty : ChunkStore := ⟨[], none, []⟩

namespace ChunkFileManager

/-- `ChunkFileManager.has_chunk_files`: true iff `metadata.json` exists. -/
def hasChunkFiles (st : ChunkStore) : Bool :=
  st.metadataFile.isSome

/-- `ChunkFileManager.save_chunks`: empty list returns early with only a log
line; otherwise one file per chunk keyed by `chunk.metadata["position"]`,
then the metadata file with `total_chunks = len(chunks)`. -/
def saveChunks (chunks : List Chunk) (filePath : String)
    (lastProcessedPosition : Int) (errorMessage : String)
    (st : ChunkStore) : ChunkStore :=
  if chunks.isEmpty then st
  else
    { st with
      chunkFiles := chunks.foldl (fun m c => insertN m c.metadataPosition c) st.chunkFiles,
      metadataFile := some ⟨filePath, chunks.length, lastProcessedPosition, errorMessage⟩ }

/-- `ChunkFileManager.load_chunks`: `none` models the `FileNotFoundError`
raised when `metadata.json` is missing; otherwise the chunk files at
positions `0 .. total_chunks-1` are read in order, a missing one being
logged and skipped. -/
def loadChunks (st : ChunkStore) : Option (List Chunk × ChunkMetadata) :=
  st.metadataFile.map (fun md =>
    ((List.range md.totalChunks).filterMap (lookupN st.chunkFiles), md))

/-- `ChunkFileManager.delete_all_chunks`: unlinks every file in the staging
directory (chunk, metadata and episode files alike) and removes the
directory. -/
def deleteAllChunks (_st : ChunkStore) : ChunkStore :=
  ChunkStore.empty

/-- The `for i, episode in enumerate(episodes)` write loop of
`ChunkFileManager.save_episodes`: writes the file keyed `idx`, then the
rest at successive indices. -/
def writeEpisodeFiles (m : List (Nat × Episode)) (idx : Nat) :
    List Episode → List (Nat × Episode)
  | [] => m
  | e :: rest => writeEpisodeFiles (insertN m idx e) (idx + 1) rest

/-- `ChunkFileManager.save_episodes`: empty list returns early; otherwise
one file per episode keyed `start_index + i`. -/
def saveEpisodes (_filePath : String) (episodes : List Episode)
    (startIndex : Nat) (st : ChunkStore) : ChunkStore :=
  if episodes.isEmpty then st
  else { st with episodeFiles := writeEpisodeFiles st.episodeFiles startIndex episodes }

/-- `ChunkFileManager.has_saved_episodes`: true iff at least one
`episode_*.json` file exists for the path. -/
def hasSavedEpisodes (st : ChunkStore) : Bool :=
  !st.episodeFiles.isEmpty

/-- The body of `ChunkFileManager.load_episodes`' for-loop: `count` probes
starting at index `idx`; a missing file ends the scan when
`breakOnMissing` (the Python test `end_index == start_index + 1000`) holds,
and is otherwise logged and skipped. -/
def loadEpisodesFrom (st : ChunkStore) (idx count : Nat)
    (breakOnMissing : Bool) : List Episode :=
  match count with
  | 0 => []
  | c + 1 =>
    match lookupN st.episodeFiles idx with
    | some e => e :: loadEpisodesFrom st (idx + 1) c breakOnMissing
    | none => if breakOnMissing then [] else loadEpisodesFrom st (idx + 1) c breakOnMissing

/-- `ChunkFileManager.load_episodes`: a missing `end_index` defaults to
`start_index + 1000`, and the loop covers `range(start_index, end_index+1)`. -/
def loadEpisodes (st : ChunkStore) (startIndex : Nat)
    (endIndex : Option Nat) : List Episode :=
  let e := endIndex.getD (startIndex + 1000)
  loadEpisodesFrom st startIndex (e + 1 - startIndex) (e == startIndex + 1000)

/-- The body of `ChunkFileManager.delete_episode_files`' for-loop: existing
files are unlinked; a missing file ends the scan only in the
`end_index == start_index + 1000` mode. -/
def deleteEpisodesFrom (m : List (Nat × Episode)) (idx count : Nat)
    (breakOnMissing : Bool) : List (Nat × Episode) :=
  match count with
  | 0 => m
  | c + 1 =>
    match lookupN m idx with
    | some _ => deleteEpisodesFrom (eraseN m idx) (idx + 1) c breakOnMissing
    | none => if breakOnMissing then m else deleteEpisodesFrom m (idx + 1) c breakOnMissing

/-- `ChunkFileManager.delete_episode_files` (the pruning of now-empty
directories carries no file content and is not modelled). -/
def deleteEpisodeFiles (st : ChunkStore) (startIndex : Nat)
    (endIndex : Option Nat) : ChunkStore :=
  let e := endIndex.getD (startIndex + 1000)
  let remaining := deleteEpisodesFrom st.episodeFiles startIndex
    (e + 1 - startIndex) (e == startIndex + 1000)
  { st with episodeFiles := remaining }

/-- Characterizes the episode-loading loop in search mode
(`breakOnMissing = true`): if the files at `idx, idx+1, …` form a
contiguous run of length `r` (the file at `idx + r` being the first
missing one), the loop returns exactly the run capped at `count` probes. -/
theorem loadEpisodesFrom_run (st : ChunkStore) (f : Nat → Episode) :
    ∀ (count idx r : Nat),
      (∀ i, i < r → lookupN st.episodeFiles (idx + i) = some (f (idx + i))) →
      lookupN st.episodeFiles (idx + r) = none →
      loadEpisodesFrom st idx count true =
        (List.range (min r count)).map (fun i => f (idx + i)) := by
  intro count
  induction count with
  | zero => intro idx r _ _; simp [loadEpisodesFrom]
  | succ c ih =>
    intro idx r hpres hmiss
    match r with
    | 0 =>
      have h0 : lookupN st.episodeFiles idx = none := by simpa using hmiss
      simp [loadEpisodesFrom, h0]
    | s + 1 =>
      have h0 : lookupN st.episodeFiles idx = some (f idx) := by
        have := hpres 0 (Nat.succ_pos s)
        simpa using this
      have hpres' : ∀ i, i < s → lookupN st.episodeFiles (idx + 1 + i) = some (f (idx + 1 + i)) := by
        intro i hi
        have := hpres (i + 1) (Nat.succ_lt_succ hi)
        have harith : idx + (i + 1) = idx + 1 + i := by omega
        rwa [harith] at this
      have hmiss' : lookupN st.episodeFiles (idx + 1 + s) = none := by
        have harith : idx + (s + 1) = idx + 1 + s := by omega
        rwa [harith] at hmiss
      have tail := ih (idx + 1) s hpres' hmiss'
      have hmin : min (s + 1) (c + 1) = min s c + 1 := Nat.succ_min_succ s c
      rw [loadEpisodesFrom]
      rw [h0]
      rw [tail, hmin, List.range_succ_eq_map, List.map_cons, List.map_map]
      have hfun : ((fun i => f (idx + i)) ∘ Nat.succ) = (fun i => f (idx + 1 + i)) := by
        funext i
        have : idx + (i + 1) = idx + 1 + i := by omega
        simp [Function.comp, Nat.succ_eq_add_one, this]
      rw [hfun]
      simp

/-- Characterizes the episode-deletion loop in search mode: exactly the
capped contiguous run is unlinked, everything else is untouched. -/
theorem deleteEpisodesFrom_run (f : Nat → Episode) :
    ∀ (count : Nat) (m : List (Nat × Episode)) (idx r : Nat),
      (∀ i, i < r → lookupN m (idx + i) = some (f (idx + i))) →
      lookupN m (idx + r) = none →
      ∀ q, lookupN (deleteEpisodesFrom m idx count true) q =
        if idx ≤ q ∧ q < idx + min r count then none else lookupN m q := by
  intro count
  induction count with
  | zero =>
    intro m idx r _ _ q
    have h1 : ¬(idx ≤ q ∧ q < idx + min r 0) := by omega
    have h2 : ¬(idx ≤ q ∧ q < idx) := by omega
    simp [deleteEpisodesFrom, h1, h2]
  | succ c ih =>
    intro m idx r hpres hmiss q
    match r with
    | 0 =>
      have h0 : lookupN m idx = none := by simpa using hmiss
      have h1 : ¬(idx ≤ q ∧ q < idx + min 0 (c + 1)) := by omega
      have h2 : ¬(idx ≤ q ∧ q < idx) := by omega
      simp [deleteEpisodesFrom, h0, h1, h2]
    | s + 1 =>
      have h0 : lookupN m idx = some (f idx) := by
        have := hpres 0 (Nat.succ_pos s)
        simpa using this
      have hpres' : ∀ i, i < s → lookupN (eraseN m idx) (idx + 1 + i) = some (f (idx + 1 + i)) := by
        intro i hi
        rw [lookupN_eraseN_ne m idx (idx + 1 + i) (by omega)]
        have := hpres (i + 1) (Nat.succ_lt_succ hi)
        have harith : idx + (i + 1) = idx + 1 + i := by omega
        rwa [harith] at this
      have hmiss' : lookupN (eraseN m idx) (idx + 1 + s) = none := by
        rw [lookupN_eraseN_ne m idx (idx + 1 + s) (by omega)]
        have harith : idx + (s + 1) = idx + 1 + s := by omega
        rwa [harith] at hmiss
      have tail := ih (eraseN m idx) (idx + 1) s hpres' hmiss' q
      rw [deleteEpisodesFrom]
      rw [h0]
      rw [tail]
      have hmin : min (s + 1) (c + 1) = min s c + 1 := Nat.succ_min_succ s c
      by_cases hq : q = idx
      · subst hq
        have h1 : ¬(q + 1 ≤ q ∧ q < q + 1 + min s c) := by omega
        have h2 : q ≤ q ∧ q < q + min (s + 1) (c + 1) := by omega
        simp only [h1, if_false, h2, if_true]
        exact lookupN_eraseN_self m q
      · rw [lookupN_eraseN_ne m idx q (fun h => hq h.symm)]
        by_cases hin : idx + 1 ≤ q ∧ q < idx + 1 + min s c
        · have h2 : idx ≤ q ∧ q < idx + min (s + 1) (c + 1) := by omega
          simp [hin, h2]
        · have h2 : ¬(idx ≤ q ∧ q < idx + min (s + 1) (c + 1)) := by omega
          simp [hin, h2]

/-- The episode-file write loop keys episode `i` of the list at
`idx + i` and touches nothing else. -/
theorem writeEpisodeFiles_lookup :
    ∀ (l : List Episode) (idx : Nat) (m : List (Nat × Episode)) (q : Nat),
      lookupN (writeEpisodeFiles m idx l) q =
        if idx ≤ q ∧ q < idx + l.length then l.get? (q - idx) else lookupN m q := by
  intro l
  induction l with
  | nil =>
    intro idx m q
    have h : ¬(idx ≤ q ∧ q < idx) := by omega
    simp [writeEpisodeFiles, h]
  | cons e rest ih =>
    intro idx m q
    rw [writeEpisodeFiles, ih (idx + 1) (insertN m idx e) q]
    by_cases hq : q = idx
    · subst hq
      have h1 : ¬(q + 1 ≤ q ∧ q < q + 1 + rest.length) := by omega
      have h2 : q ≤ q ∧ q < q + (e :: rest).length := by
        simp only [List.length_cons]; omega
      simp only [h1, if_false, h2, if_true, lookupN_insertN_self, Nat.sub_self]
      rfl
    · rw [lookupN_insertN_ne m idx q e (fun h => hq h.symm)]
      by_cases hc : idx ≤ q ∧ q < idx + (e :: rest).length
      · have h1 : idx + 1 ≤ q ∧ q < idx + 1 + rest.length := by
          simp only [List.length_cons] at hc
          omega
        simp only [h1, if_true, hc, if_true]
        have harith : q - idx = (q - (idx + 1)) + 1 := by omega
        rw [harith]
        rfl
      · have h1 : ¬(idx + 1 ≤ q ∧ q < idx + 1 + rest.length) := by
          simp only [List.length_cons] at hc
          omega
        have hc' : ¬(idx ≤ q ∧ q < idx + (rest.length + 1)) := by
          simp only [List.length_cons] at hc
          omega
        simp [h1, hc']

end ChunkFileManager

/-- C9: `load_episodes` without an explicit `end_index` returns exactly the
contiguous run of episode files starting at `start_index`, stopping at the
first missing file, and probes no index beyond `start_index + 1000` (the
result is the run capped at 1001 items, so files after a gap or beyond the
cap are never loaded); `delete_episode_files` without an `end_index`
unlinks exactly the same capped run and touches nothing else. -/
theorem claim_C9_episode_scan_cap (st : ChunkStore) (start r : Nat)
    (f : Nat → Episode)
    (hpres : ∀ i, i < r → lookupN st.episodeFiles (start + i) = some (f (start + i)))
    (hmiss : lookupN st.episodeFiles (start + r) = none) :
    ChunkFileManager.loadEpisodes st start none =
      (List.range (min r 1001)).map (fun i => f (start + i)) ∧
    ∀ q, lookupN (ChunkFileManager.deleteEpisodeFiles st start none).episodeFiles q =
      if start ≤ q ∧ q < start + min r 1001 then none
      else lookupN st.episodeFiles q := by
  constructor
  · have hcount : start + 1000 + 1 - start = 1001 := by omega
    have hbreak : ((start + 1000 : Nat) == start + 1000) = true := by simp
    unfold ChunkFileManager.loadEpisodes
    simp only [Option.getD, hcount, hbreak]
    exact ChunkFileManager.loadEpisodesFrom_run st f 1001 start r hpres hmiss
  · intro q
    have hcount : start + 1000 + 1 - start = 1001 := by omega
    have hbreak : ((start + 1000 : Nat) == start + 1000) = true := by simp
    unfold ChunkFileManager.deleteEpisodeFiles
    simp only [Option.getD, hcount, hbreak]
    exact ChunkFileManager.deleteEpisodesFrom_run f 1001 st.episodeFiles start r hpres hmiss q

/-- A staging directory holding episode files at indices 0, 1 and 5 (a gap
at 2): used to exercise `claim_C9_episode_scan_cap` concretely. -/
def gapStore : ChunkStore :=
  ⟨[], none,
    [(0, ⟨"e0", "b0", "s", 0, "text", "g"⟩),
     (1, ⟨"e1", "b1", "s", 0, "text", "g"⟩),
     (5, ⟨"e5", "b5", "s", 0, "text", "g"⟩)]⟩

/-- Index function matching `gapStore`'s run of length 2. -/
def gapEp (i : Nat) : Episode :=
  if i = 0 then ⟨"e0", "b0", "s", 0, "text", "g"⟩
  else ⟨"e1", "b1", "s", 0, "text", "g"⟩

/-- Witness for C9: on `gapStore` the scan returns exactly the two episodes
of the run and deletion removes exactly those two, leaving the file after
the gap (index 5) in place. -/
theorem claim_C9_episode_scan_cap_witness :
    ChunkFileManager.loadEpisodes gapStore 0 none =
      (List.range (min 2 1001)).map (fun i => gapEp (0 + i)) ∧
    lookupN (ChunkFileManager.deleteEpisodeFiles gapStore 0 none).episodeFiles 1 = none ∧
    lookupN (ChunkFileManager.deleteEpisodeFiles gapStore 0 none).episodeFiles 5 =
      lookupN gapStore.episodeFiles 5 := by
  have h := claim_C9_episode_scan_cap gapStore 0 2 gapEp
    (fun i hi => by
      match i, hi with
      | 0, _ => rfl
      | 1, _ => rfl)
    (by rfl)
  refine ⟨h.1, ?_, ?_⟩
  · have := h.2 1
    simpa using this
  · have := h.2 5
    simpa using this

/-- C10: saving an empty chunk list or an empty episode list returns early
and writes nothing: the staging directory is unchanged (no unit file,
metadata file or episode file is created, and the early return performs no
I/O that could raise), so `has_chunk_files` and `has_saved_episodes`
remain false for a path that had no prior checkpoint. -/
theorem claim_C10_empty_save_noop (fp : String) (lp : Int) (em : String)
    (si : Nat) (st : ChunkStore)
    (hc : ChunkFileManager.hasChunkFiles st = false)
    (he : ChunkFileManager.hasSavedEpisodes st = false) :
    ChunkFileManager.saveChunks [] fp lp em st = st ∧
    ChunkFileManager.saveEpisodes fp [] si st = st ∧
    ChunkFileManager.hasChunkFiles (ChunkFileManager.saveChunks [] fp lp em st) = false ∧
    ChunkFileManager.hasSavedEpisodes (ChunkFileManager.saveEpisodes fp [] si st) = false := by
  refine ⟨rfl, rfl, ?_, ?_⟩
  · simpa [ChunkFileManager.saveChunks] using hc
  · simpa [ChunkFileManager.saveEpisodes] using he

/-- Witness for C10 at a concrete empty staging directory. -/
theorem claim_C10_empty_save_noop_witness :
    ChunkFileManager.saveChunks [] "f.txt" (-1) "" ChunkStore.empty = ChunkStore.empty ∧
    ChunkFileManager.saveEpisodes "f.txt" [] 0 ChunkStore.empty = ChunkStore.empty ∧
    ChunkFileManager.hasChunkFiles
      (ChunkFileManager.saveChunks [] "f.txt" (-1) "" ChunkStore.empty) = false ∧
    ChunkFileManager.hasSavedEpisodes
      (ChunkFileManager.saveEpisodes "f.txt" [] 0 ChunkStore.empty) = false :=
  claim_C10_empty_save_noop "f.txt" (-1) "" 0 ChunkStore.empty rfl rfl

namespace Phase1

/-- Return value of `_process_single_document_with_recovery`:
`(episodes, chunk count, error file path)`. -/
structure P1Result where
  episodes : List Episode
  chunkCount : Nat
  errorFile : Option String
deriving DecidableEq, Repr

/-- Step 2 of `_process_single_document_with_recovery`: the per-chunk
conversion loop over the current `chunks` list.  On full success the chunk
checkpoint is deleted and (when the document sits under `input/` with a
base directory set) the derived episodes are staged; on a conversion error
at loop index `i`, `chunks[i:]` is saved with
`last_processed_position = i - 1 if i > 0 else -1` and the error message,
and the function returns `(episodes, len(episodes), file_path)`.  The
`input → work` file move on the success path lives on the source tree, not
in the staging store; it is modelled separately (see `FileMove`). -/
def convertLoop (convert : Chunk → Except String Episode) (filePath : String)
    (inInput : Bool) (chunks : List Chunk) (st : ChunkStore) :
    Nat → List Chunk → List Episode → P1Result × ChunkStore
  | _, [], acc =>
    let st1 := if ChunkFileManager.hasChunkFiles st then
        ChunkFileManager.deleteAllChunks st else st
    let st2 := if !acc.isEmpty && inInput then
        ChunkFileManager.saveEpisodes filePath acc 0 st1 else st1
    (⟨acc, chunks.length, none⟩, st2)
  | i, c :: rest, acc =>
    match convert c with
    | .ok e => convertLoop convert filePath inInput chunks st (i + 1) rest (acc ++ [e])
    | .error msg =>
      let st1 := ChunkFileManager.saveChunks (chunks.drop i) filePath
        (if i > 0 then (i : Int) - 1 else -1) msg st
      (⟨acc, acc.length, some filePath⟩, st1)

/-- `_process_single_document_with_recovery` (per document):
if a chunk checkpoint exists, load it and keep only the entries after
`last_processed_position`; otherwise use the freshly parsed chunks.  An
empty work list deletes any leftover checkpoint and returns success with
zero chunks; otherwise the conversion loop runs.  `convert` stands for the
external `chunk.to_episode` call, whose per-unit failure the claim is
about; `inInput` models `base_directory and "/input" in file_path`. -/
def processSingleDocumentWithRecovery (convert : Chunk → Except String Episode)
    (filePath : String) (inInput : Bool) (parsedChunks : List Chunk)
    (st : ChunkStore) : P1Result × ChunkStore :=
  let chunks :=
    if ChunkFileManager.hasChunkFiles st then
      match ChunkFileManager.loadChunks st with
      | some (cs, md) =>
        if md.lastProcessedPosition ≥ 0 then
          cs.drop (md.lastProcessedPosition + 1).toNat
        else cs
      | none => []
    else parsedChunks
  if chunks.isEmpty then
    let st1 := if ChunkFileManager.hasChunkFiles st then
        ChunkFileManager.deleteAllChunks st else st
    (⟨[], 0, none⟩, st1)
  else
    convertLoop convert filePath inInput chunks st 0 chunks []

/-- Stand-in for `chunk.to_episode` when conversion succeeds. -/
def toEp (c : Chunk) : Episode :=
  ⟨c.id, c.text, "Source file: f.txt", 0, "text", "g"⟩

/-- A conversion that fails exactly on the chunk at position 2, modelling
a per-unit conversion error at loop index 2 of a fresh 3-chunk document. -/
def convFailAt2 (c : Chunk) : Except String Episode :=
  if c.metadataPosition == 2 then .error "boom" else .ok (toEp c)

/-- A conversion that always succeeds. -/
def convOk (c : Chunk) : Except String Episode := .ok (toEp c)

/-- The three chunks of the failing document, positions 0, 1, 2. -/
def d0 : Chunk := ⟨"f_chunk_0", "t0", 0⟩

def d1 : Chunk := ⟨"f_chunk_1", "t1", 1⟩

def d2 : Chunk := ⟨"f_chunk_2", "t2", 2⟩

end Phase1

/-- C1: evaluation showing the resume path does NOT process the unprocessed
remainder.  First run: a fresh 3-chunk document fails conversion at loop
index 2, so the remainder `[d2]` is persisted keyed by its original
position 2, with `total_chunks = 1` and `last_processed_position = 1`.
Second run (every conversion succeeding): `load_chunks` probes only
positions `0 .. total_chunks-1 = 0`, finds no file there, returns `[]`;
after the additional `chunks[last_processed+1:]` slice the document resumes
with an empty work list, the checkpoint is deleted, and the unit at
position 2 — which the claim requires to be processed — is silently lost. -/
theorem claim_C1_resume_loses_remainder :
    Phase1.processSingleDocumentWithRecovery Phase1.convFailAt2 "f.txt" true
      [Phase1.d0, Phase1.d1, Phase1.d2] ChunkStore.empty =
      (⟨[Phase1.toEp Phase1.d0, Phase1.toEp Phase1.d1], 2, some "f.txt"⟩,
        ⟨[(2, Phase1.d2)], some ⟨"f.txt", 1, 1, "boom"⟩, []⟩) ∧
    Phase1.processSingleDocumentWithRecovery Phase1.convOk "f.txt" true
      [Phase1.d0, Phase1.d1, Phase1.d2]
      ⟨[(2, Phase1.d2)], some ⟨"f.txt", 1, 1, "boom"⟩, []⟩ =
      (⟨[], 0, none⟩, ChunkStore.empty) := by
  constructor <;> rfl

namespace Phase2

/-- Observable steps of `_save_single_episode_with_progress`, in program
order: the sink call returning successfully, the checkpoint deletion, and
the optional `work → done` move. -/
inductive Ev where
  | sinkSaveOk (idx : Nat)
  | checkpointDeleted (idx : Nat)
  | movedToDone
deriving DecidableEq, Repr

/-- `_save_single_episode_with_progress`: `await episode_repository.save`
may raise (modelled by `sinkResult`); only after it returns successfully is
`delete_episode_files(file_path, idx, idx)` executed, followed — when no
episode files remain and the path is under `work/` — by the move to
`done/` (an event here; the move itself acts on the source tree, see
`FileMove`).  If the save raises, the exception propagates before any
deletion, so the function returns with the staging store untouched. -/
def saveSingleEpisodeWithProgress (st : ChunkStore) (idx : Nat)
    (inWork : Bool) (sinkResult : Except String Unit) :
    ChunkStore × Except String Unit × List Ev :=
  match sinkResult with
  | .error e => (st, .error e, [])
  | .ok _ =>
    let st1 := ChunkFileManager.deleteEpisodeFiles st idx (some idx)
    let evs := [Ev.sinkSaveOk idx, Ev.checkpointDeleted idx]
    if !ChunkFileManager.hasSavedEpisodes st1 && inWork then
      (st1, .ok (), evs ++ [Ev.movedToDone])
    else
      (st1, .ok (), evs)

end Phase2

/-- C3: a unit's episode checkpoint is deleted only strictly after the
sink's save for it returns successfully.  If the save raises, nothing is
deleted and the checkpoint file is intact; if it succeeds, exactly that
episode's file is removed (all other indices untouched) and in the emitted
event order the deletion strictly follows the successful save.  The state
is therefore always either fully committed or fully recoverable. -/
theorem claim_C3_checkpoint_after_save (st : ChunkStore) (idx : Nat)
    (inWork : Bool) (ep : Episode)
    (hidx : lookupN st.episodeFiles idx = some ep) :
    (∀ e, Phase2.saveSingleEpisodeWithProgress st idx inWork (.error e) =
        (st, .error e, []) ∧
      lookupN (Phase2.saveSingleEpisodeWithProgress st idx inWork
        (.error e)).fst.episodeFiles idx = some ep) ∧
    lookupN (Phase2.saveSingleEpisodeWithProgress st idx inWork
      (.ok ())).fst.episodeFiles idx = none ∧
    (∀ j, j ≠ idx →
      lookupN (Phase2.saveSingleEpisodeWithProgress st idx inWork
        (.ok ())).fst.episodeFiles j = lookupN st.episodeFiles j) ∧
    (Phase2.saveSingleEpisodeWithProgress st idx inWork (.ok ())).snd.snd.take 2 =
      [Phase2.Ev.sinkSaveOk idx, Phase2.Ev.checkpointDeleted idx] := by
  have hdel : (ChunkFileManager.deleteEpisodeFiles st idx (some idx)).episodeFiles =
      eraseN st.episodeFiles idx := by
    unfold ChunkFileManager.deleteEpisodeFiles
    have hcount : idx + 1 - idx = 1 := by omega
    have hbreak : (idx == idx + 1000) = false := by simp
    simp only [Option.getD, hcount, hbreak]
    unfold ChunkFileManager.deleteEpisodesFrom
    rw [hidx]
    rfl
  refine ⟨fun e => ⟨rfl, ?_⟩, ?_, ?_, ?_⟩
  · exact hidx
  · unfold Phase2.saveSingleEpisodeWithProgress
    by_cases hmove : (!ChunkFileManager.hasSavedEpisodes
        (ChunkFileManager.deleteEpisodeFiles st idx (some idx)) && inWork) = true
    · simp only [hmove, if_true, hdel]
      exact lookupN_eraseN_self st.episodeFiles idx
    · simp only [Bool.not_eq_true] at hmove
      simp only [hmove, Bool.false_eq_true, if_false, hdel]
      exact lookupN_eraseN_self st.episodeFiles idx
  · intro j hj
    unfold Phase2.saveSingleEpisodeWithProgress
    by_cases hmove : (!ChunkFileManager.hasSavedEpisodes
        (ChunkFileManager.deleteEpisodeFiles st idx (some idx)) && inWork) = true
    · simp only [hmove, if_true, hdel]
      exact lookupN_eraseN_ne st.episodeFiles idx j (fun h => hj h.symm)
    · simp only [Bool.not_eq_true] at hmove
      simp only [hmove, Bool.false_eq_true, if_false, hdel]
      exact lookupN_eraseN_ne st.episodeFiles idx j (fun h => hj h.symm)
  · unfold Phase2.saveSingleEpisodeWithProgress
    by_cases hmove : (!ChunkFileManager.hasSavedEpisodes
        (ChunkFileManager.deleteEpisodeFiles st idx (some idx)) && inWork) = true
    · simp [hmove]
    · simp only [Bool.not_eq_true] at hmove
      simp [hmove]

/-- Witness for C3 on a one-episode checkpoint under `work/`. -/
theorem claim_C3_checkpoint_after_save_witness :
    (Phase2.saveSingleEpisodeWithProgress
        ⟨[], none, [(0, ⟨"e0", "b0", "s", 0, "text", "g"⟩)]⟩ 0 true
        (.error "rate limit") =
      (⟨[], none, [(0, ⟨"e0", "b0", "s", 0, "text", "g"⟩)]⟩, .error "rate limit", []) ∧
      lookupN (Phase2.saveSingleEpisodeWithProgress
        ⟨[], none, [(0, ⟨"e0", "b0", "s", 0, "text", "g"⟩)]⟩ 0 true
        (.error "rate limit")).fst.episodeFiles 0 =
        some ⟨"e0", "b0", "s", 0, "text", "g"⟩) ∧
    lookupN (Phase2.saveSingleEpisodeWithProgress
      ⟨[], none, [(0, ⟨"e0", "b0", "s", 0, "text", "g"⟩)]⟩ 0 true
      (.ok ())).fst.episodeFiles 0 = none ∧
    (Phase2.saveSingleEpisodeWithProgress
      ⟨[], none, [(0, ⟨"e0", "b0", "s", 0, "text", "g"⟩)]⟩ 0 true
      (.ok ())).snd.snd.take 2 =
      [Phase2.Ev.sinkSaveOk 0, Phase2.Ev.checkpointDeleted 0] := by
  have h := claim_C3_checkpoint_after_save
    ⟨[], none, [(0, ⟨"e0", "b0", "s", 0, "text", "g"⟩)]⟩ 0 true
    ⟨"e0", "b0", "s", 0, "text", "g"⟩ rfl
  exact ⟨h.1 "rate limit", h.2.1, h.2.2.2⟩

namespace Orchestrator

/-- Outcome of phase 1 for one document under `input/`: either the derived
episodes together with the chunk count, or a failure (the returned error
file path is appended to `failed_files`). -/
inductive P1Outcome where
  | ok (episodes : List Episode) (chunks : Nat)
  | failed
deriving DecidableEq, Repr

/-- Where a document was found and what happened to it before the
registration stage: a fresh document processed by phase 1
(`documents_to_process`), or a `work/` document whose saved episode files
are loaded directly (`documents_in_work`), the load either succeeding or
raising (the latter appends to `failed_files`). -/
inductive FileKind where
  | fresh (p1 : P1Outcome)
  | inWork (loadOk : Bool) (episodes : List Episode)
deriving DecidableEq, Repr

/-- One document given to `execute_parallel`, with the outcome of each
episode index's `episode_repository.save` call (`true` = returns,
`false` = raises after retries are exhausted). -/
structure FileSpec where
  path : String
  kind : FileKind
  sinkResults : List Bool
deriving DecidableEq, Repr

/-- The `RegisterResult` dataclass (`error_message` is derived from the
failed-file count and carries no extra control flow). -/
structure RegisterResult where
  totalFiles : Nat
  totalChunks : Nat
  totalEpisodes : Nat
  success : Bool
deriving DecidableEq, Repr

/-- `_save_episodes_parallel_with_progress` over the remaining episode
indices: every save is attempted (`asyncio.gather` with
`return_exceptions=True`), a raising save leaves its checkpoint in place,
and the exceptions are only counted and logged, never re-raised.  Each
episode's save touches only its own index, so the fold in index order is a
faithful linearization of the semaphore-bounded concurrent execution. -/
def saveEpisodesParallel (sink : Nat → Bool) (inWork : Bool) :
    List Nat → ChunkStore → ChunkStore × Nat
  | [], st => (st, 0)
  | i :: rest, st =>
    let r := Phase2.saveSingleEpisodeWithProgress st i inWork
      (if sink i then .ok () else .error "save failed")
    let tail := saveEpisodesParallel sink inWork rest r.fst
    (tail.fst, tail.snd + (match r.snd.fst with | .ok _ => 0 | .error _ => 1))

/-- `_save_file_episodes_with_progress`: stage 1 pre-saves all episodes
unless episode files already exist; the remaining work is determined from
the on-disk files at indices `0 .. total-1` (the store is authoritative),
then stage 2 saves them under the concurrency limit. -/
def saveFileEpisodesWithProgress (filePath : String) (episodes : List Episode)
    (sink : Nat → Bool) (inWork : Bool) (st : ChunkStore) : ChunkStore × Nat :=
  let st0 := if !ChunkFileManager.hasSavedEpisodes st then
      ChunkFileManager.saveEpisodes filePath episodes 0 st else st
  let remaining := (List.range episodes.length).filter
    (fun i => (lookupN st0.episodeFiles i).isSome)
  saveEpisodesParallel sink inWork remaining st0

/-- True for the files `execute_parallel` appends to `failed_files`:
phase-1 failures (`error_file` returned) and `work/` files whose episode
files fail to load.  Phase-2 registration failures are NOT in this set. -/
def isFailedBeforeRegistration : FileKind → Bool
  | .fresh .failed => true
  | .inWork false _ => true
  | _ => false

/-- Registration stage for one file, yielding its final staging store:
fresh phase-1 failures are skipped (their chunk checkpoint is the Phase1
model's concern); fresh successes stage and save their episodes; loaded
`work/` files save on top of their existing staged episode files; `work/`
load failures are skipped with their staged files left alone. -/
def runRegistrationForFile (f : FileSpec) : ChunkStore × Nat :=
  let sink := fun i => f.sinkResults.getD i true
  match f.kind with
  | .fresh .failed => (ChunkStore.empty, 0)
  | .fresh (.ok eps _) =>
    if eps.isEmpty then (ChunkStore.empty, 0)
    else saveFileEpisodesWithProgress f.path eps sink true ChunkStore.empty
  | .inWork true eps =>
    if eps.isEmpty then (ChunkFileManager.saveEpisodes f.path eps 0 ChunkStore.empty, 0)
    else saveFileEpisodesWithProgress f.path eps sink true
      (ChunkFileManager.saveEpisodes f.path eps 0 ChunkStore.empty)
  | .inWork false eps =>
    (ChunkFileManager.saveEpisodes f.path eps 0 ChunkStore.empty, 0)

/-- The bookkeeping of `RegisterDocumentUseCase.execute_parallel`:
`failed_files` collects exactly the phase-1 failures and the `work/` load
failures; `success = len(failed_files) == 0`; the totals come from the
fresh documents (`all_processed_documents = documents_to_process`).  The
per-file staging stores after the registration stage are returned
alongside. -/
def executeParallel (files : List FileSpec) :
    RegisterResult × List (String × ChunkStore) :=
  let failedFiles := (files.filter (fun f => isFailedBeforeRegistration f.kind)).map (·.path)
  let freshFiles := files.filter (fun f => match f.kind with | .fresh _ => true | _ => false)
  let totalChunks := (freshFiles.map (fun f =>
    match f.kind with | .fresh (.ok _ n) => n | _ => 0)).foldl (· + ·) 0
  let allEpisodes := (freshFiles.map (fun f =>
    match f.kind with | .fresh (.ok eps _) => eps | _ => [])).flatten
  let stores := files.map (fun f => (f.path, (runRegistrationForFile f).fst))
  (⟨freshFiles.length, totalChunks, allEpisodes.length, failedFiles.isEmpty⟩, stores)

theorem saveSingle_ok_lookup (st : ChunkStore) (i : Nat) (inWork : Bool) (q : Nat) :
    lookupN (Phase2.saveSingleEpisodeWithProgress st i inWork (.ok ())).fst.episodeFiles q =
      if q = i then none else lookupN st.episodeFiles q := by
  have hdel : (ChunkFileManager.deleteEpisodeFiles st i (some i)).episodeFiles =
      ChunkFileManager.deleteEpisodesFrom st.episodeFiles i 1 false := by
    unfold ChunkFileManager.deleteEpisodeFiles
    have hcount : i + 1 - i = 1 := by omega
    have hbreak : (i == i + 1000) = false := by simp
    simp only [Option.getD, hcount, hbreak]
  have hstep : ∀ q', lookupN (ChunkFileManager.deleteEpisodesFrom st.episodeFiles i 1 false) q' =
      if q' = i then none else lookupN st.episodeFiles q' := by
    intro q'
    unfold ChunkFileManager.deleteEpisodesFrom
    cases hm : lookupN st.episodeFiles i with
    | some e =>
      simp only
      unfold ChunkFileManager.deleteEpisodesFrom
      by_cases hq : q' = i
      · subst hq; simp [lookupN_eraseN_self]
      · simp [hq, lookupN_eraseN_ne st.episodeFiles i q' (fun h => hq h.symm)]
    | none =>
      simp only
      unfold ChunkFileManager.deleteEpisodesFrom
      by_cases hq : q' = i
      · subst hq; simp [hm]
      · simp [hq]
  unfold Phase2.saveSingleEpisodeWithProgress
  by_cases hmove : (!ChunkFileManager.hasSavedEpisodes
      (ChunkFileManager.deleteEpisodeFiles st i (some i)) && inWork) = true
  · simp only [hmove, if_true, hdel]
    exact hstep q
  · simp only [Bool.not_eq_true] at hmove
    simp only [hmove, Bool.false_eq_true, if_false, hdel]
    exact hstep q

/-- The parallel-save stage deletes exactly the checkpoints of the indices
whose sink call succeeds; a failed index's checkpoint is untouched. -/
theorem saveEpisodesParallel_lookup (sink : Nat → Bool) (inWork : Bool) :
    ∀ (idxs : List Nat) (st : ChunkStore) (q : Nat),
      lookupN (saveEpisodesParallel sink inWork idxs st).fst.episodeFiles q =
        if q ∈ idxs ∧ sink q = true then none else lookupN st.episodeFiles q := by
  intro idxs
  induction idxs with
  | nil =>
    intro st q
    simp [saveEpisodesParallel]
  | cons i rest ih =>
    intro st q
    rw [saveEpisodesParallel]
    cases hs : sink i with
    | false =>
      have herr : Phase2.saveSingleEpisodeWithProgress st i inWork
          (.error "save failed") = (st, .error "save failed", []) := rfl
      simp only [hs, Bool.false_eq_true, if_false, herr]
      rw [ih]
      have hcond : (q ∈ rest ∧ sink q = true) = (q ∈ i :: rest ∧ sink q = true) := by
        apply propext
        constructor
        · exact fun h => ⟨List.mem_cons_of_mem i h.1, h.2⟩
        · rintro ⟨h1, h2⟩
          rcases List.mem_cons.mp h1 with h3 | h3
          · rw [h3, hs] at h2
            exact (Bool.false_ne_true h2).elim
          · exact ⟨h3, h2⟩
      exact if_congr (iff_of_eq hcond) rfl rfl
    | true =>
      simp only [hs, if_true]
      rw [ih, saveSingle_ok_lookup]
      by_cases hA : q ∈ rest ∧ sink q = true
      · have h2 : q ∈ i :: rest ∧ sink q = true := ⟨List.mem_cons_of_mem i hA.1, hA.2⟩
        simp [hA, h2]
      · simp only [hA, if_false]
        by_cases hqi : q = i
        · have h2 : q ∈ i :: rest ∧ sink q = true := by
            rw [hqi]
            exact ⟨List.mem_cons_self i rest, hs⟩
          simp [hqi, h2, hs]
        · have h2 : ¬(q ∈ i :: rest ∧ sink q = true) := fun h => by
            rcases List.mem_cons.mp h.1 with h3 | h3
            · exact hqi h3
            · exact hA ⟨h3, h.2⟩
          simp [h2, hqi, hA]

end Orchestrator

theorem isEmpty_true_iff {α : Type} (l : List α) : l.isEmpty = true ↔ l = [] := by
  cases l <;> simp

/-- An episode staged for the file `w.txt` in concrete C2 runs. -/
def epW : Episode := ⟨"w.txt - chunk_0", "body", "Source file: w.txt", 0, "text", "g"⟩

/-- Counterexample to C2 as stated: a single document whose only unit's
registration raises after retries are exhausted.  Its episode checkpoint
stays on disk (the file did not complete), yet `failed_files` stays empty,
so the aggregate `success` flag is `true` — the claimed biconditional
between the flag and per-file failure is false, and the file is not
recorded as failed. -/
theorem claim_C2_counterexample :
    Orchestrator.executeParallel
        [⟨"w.txt", Orchestrator.FileKind.fresh (Orchestrator.P1Outcome.ok [epW] 1),
          [false]⟩] =
      (⟨1, 1, 1, true⟩, [("w.txt", ⟨[], none, [(0, epW)]⟩)]) ∧
    ChunkFileManager.hasSavedEpisodes ⟨[], none, [(0, epW)]⟩ = true :=
  ⟨rfl, rfl⟩

/-- C2 (amended): the aggregate `success` flag is false iff at least one
file failed before the registration stage — a phase-1 failure or a `work/`
episode-file load failure.  A unit whose phase-2 registration raises after
retries keeps its episode checkpoint on disk, but its file is not added to
`failed_files` and does not affect the flag; other files/units continue
unaffected. -/
theorem claim_C2_success_flag_amended (files : List Orchestrator.FileSpec)
    (filePath : String) (eps : List Episode) (sinkList : List Bool) (i : Nat)
    (hi : i < eps.length) (hfail : sinkList.getD i true = false) :
    ((Orchestrator.executeParallel files).fst.success = true ↔
      ∀ f ∈ files, Orchestrator.isFailedBeforeRegistration f.kind = false) ∧
    lookupN (Orchestrator.saveFileEpisodesWithProgress filePath eps
      (fun j => sinkList.getD j true) true ChunkStore.empty).fst.episodeFiles i =
      eps.get? i := by
  constructor
  · show (((files.filter (fun f => Orchestrator.isFailedBeforeRegistration f.kind)).map
      (·.path)).isEmpty = true) ↔ _
    rw [isEmpty_true_iff, List.map_eq_nil_iff, List.filter_eq_nil_iff]
    constructor
    · intro h f hf
      have := h f hf
      simpa using this
    · intro h f hf
      simp [h f hf]
  · have hne : eps.isEmpty = false := by
      cases eps with
      | nil => exact absurd hi (by simp)
      | cons _ _ => rfl
    have hempty : ChunkFileManager.hasSavedEpisodes ChunkStore.empty = false := rfl
    unfold Orchestrator.saveFileEpisodesWithProgress
    rw [hempty]
    have hstage : ChunkFileManager.saveEpisodes filePath eps 0 ChunkStore.empty =
        ⟨[], none, ChunkFileManager.writeEpisodeFiles [] 0 eps⟩ := by
      unfold ChunkFileManager.saveEpisodes
      rw [hne]
      rfl
    simp only [Bool.not_false, if_true, hstage]
    have hlook : ∀ q, lookupN (ChunkFileManager.writeEpisodeFiles [] 0 eps) q =
        if q < eps.length then eps.get? q else none := by
      intro q
      rw [ChunkFileManager.writeEpisodeFiles_lookup eps 0 [] q]
      by_cases hq : q < eps.length
      · have h1 : 0 ≤ q ∧ q < 0 + eps.length := by omega
        simp [h1, hq]
      · have h1 : ¬(0 ≤ q ∧ q < 0 + eps.length) := by omega
        simp only [h1, if_false, hq]
        rfl
    have hrem : (List.range eps.length).filter
        (fun j => (lookupN (ChunkFileManager.writeEpisodeFiles [] 0 eps) j).isSome) =
        List.range eps.length := by
      apply List.filter_eq_self.mpr
      intro a ha
      have halt : a < eps.length := List.mem_range.mp ha
      rw [hlook a]
      simp [halt, List.getElem?_eq_getElem halt]
    simp only [hrem]
    rw [Orchestrator.saveEpisodesParallel_lookup]
    have hcond : ¬(i ∈ List.range eps.length ∧ (sinkList.getD i true) = true) := by
      rintro ⟨_, h2⟩
      rw [hfail] at h2
      exact Bool.false_ne_true h2
    simp only [hcond, if_false]
    rw [hlook i]
    simp [hi]

/-- Witness for the amended C2 at a concrete input. -/
theorem claim_C2_success_flag_amended_witness :
    (0 < [epW].length ∧ ([false] : List Bool).getD 0 true = false) ∧
    (((Orchestrator.executeParallel
        [⟨"w.txt", Orchestrator.FileKind.fresh (Orchestrator.P1Outcome.ok [epW] 1),
          [false]⟩]).fst.success = true ↔
      ∀ f ∈ [(⟨"w.txt", Orchestrator.FileKind.fresh (Orchestrator.P1Outcome.ok [epW] 1),
          [false]⟩ : Orchestrator.FileSpec)],
        Orchestrator.isFailedBeforeRegistration f.kind = false) ∧
    lookupN (Orchestrator.saveFileEpisodesWithProgress "w.txt" [epW]
      (fun j => ([false] : List Bool).getD j true) true ChunkStore.empty).fst.episodeFiles 0 =
      [epW].get? 0) :=
  ⟨⟨by decide, by decide⟩,
    claim_C2_success_flag_amended
      [⟨"w.txt", Orchestrator.FileKind.fresh (Orchestrator.P1Outcome.ok [epW] 1), [false]⟩]
      "w.txt" [epW] [false] 0 (by decide) (by decide)⟩

namespace Coordinator

/-- The `RateLimitState` dataclass of `rate_limit_coordinator.py`;
`wait_until` is an absolute timestamp in seconds. -/
structure RateLimitState where
  is_waiting : Bool
  wait_until : Option Nat
  wait_time : Nat
  affected_threads : Nat
  trigger_thread_id : Option String
  trigger_error_message : Option String
deriving DecidableEq, Repr

/-- The dataclass defaults, also the state after `_reset_state`. -/
def RateLimitState.default : RateLimitState := ⟨false, none, 0, 0, none, none⟩

/-- `not is_waiting or not wait_until or new_wait_until > wait_until`:
the guard under which `notify_rate_limit` overwrites the shared state. -/
def notifyShouldUpdate (st : RateLimitState) (newWaitUntil : Nat) : Bool :=
  !st.is_waiting || st.wait_until.isNone ||
    (match st.wait_until with
     | some u => decide (u < newWaitUntil)
     | none => true)

/-- `RateLimitCoordinator.notify_rate_limit`: under the guard the state
becomes waiting until `now + wait_time` with `affected_threads = 1` (the
source comment reads "the detecting thread itself") and the caller
recorded as trigger; otherwise an in-flight longer wait is left alone. -/
def notifyRateLimit (st : RateLimitState) (threadId : String)
    (now waitTime : Nat) (errorMessage : String) : RateLimitState :=
  let newWaitUntil := now + waitTime
  if notifyShouldUpdate st newWaitUntil then
    ⟨true, some newWaitUntil, waitTime, 1, some threadId, some errorMessage⟩
  else st

/-- `RateLimitCoordinator.check_and_wait_if_needed`: a passive task inside
the window increments `affected_threads`, sleeps and returns `true`; a
task arriving after the deadline resets the state and returns `false`;
otherwise nothing happens. -/
def checkAndWaitIfNeeded (st : RateLimitState) (_threadId : String)
    (now : Nat) : RateLimitState × Bool :=
  if st.is_waiting then
    match st.wait_until with
    | some u =>
      if now < u then ({ st with affected_threads := st.affected_threads + 1 }, true)
      else (RateLimitState.default, false)
    | none => (st, false)
  else (st, false)

/-- `RateLimitCoordinator.wait_for_rate_limit_completion`: the triggering
task sleeps out the remaining time (the sleep changes no shared state in
this sequential model) and then resets the state only if it is still the
recorded trigger. -/
def waitForRateLimitCompletion (st : RateLimitState) (threadId : String)
    (_now : Nat) : RateLimitState :=
  if st.is_waiting then
    match st.wait_until with
    | some _ =>
      if st.trigger_thread_id = some threadId then RateLimitState.default else st
    | none => st
  else st

/-- N concurrent `notify_rate_limit` calls observing the same `now`,
folded in their lock-acquisition order. -/
def foldNotify (calls : List (String × Nat)) (now : Nat)
    (st : RateLimitState) : RateLimitState :=
  calls.foldl (fun s c => notifyRateLimit s c.fst now c.snd "") st

theorem foldNotify_wait_until (now : Nat) :
    ∀ (calls : List (String × Nat)) (st : RateLimitState) (u : Nat),
      st.is_waiting = true → st.wait_until = some u →
      (foldNotify calls now st).wait_until =
        some (max u ((calls.map (fun c => now + c.snd)).foldr max 0)) := by
  intro calls
  induction calls with
  | nil =>
    intro st u hw hu
    simp [foldNotify, hu]
  | cons c rest ih =>
    intro st u hw hu
    show (foldNotify rest now (notifyRateLimit st c.fst now c.snd "")).wait_until = _
    by_cases hlt : u < now + c.snd
    · have hupd : notifyRateLimit st c.fst now c.snd "" =
          ⟨true, some (now + c.snd), c.snd, 1, some c.fst, some ""⟩ := by
        unfold notifyRateLimit notifyShouldUpdate
        rw [hu]
        simp [hlt]
      rw [hupd, ih _ (now + c.snd) rfl rfl]
      congr 1
      simp only [List.map_cons, List.foldr_cons]
      omega
    · have hupd : notifyRateLimit st c.fst now c.snd "" = st := by
        unfold notifyRateLimit notifyShouldUpdate
        rw [hu]
        simp [hw, hlt]
      rw [hupd, ih st u hw hu]
      congr 1
      simp only [List.map_cons, List.foldr_cons]
      omega

/-- Any nonempty burst of notifications leaves `affected_threads = 1`:
`notify_rate_limit` never increments the counter. -/
theorem foldNotify_affected (now : Nat) :
    ∀ (calls : List (String × Nat)) (st : RateLimitState),
      st.affected_threads = 1 →
      (foldNotify calls now st).affected_threads = 1 := by
  intro calls
  induction calls with
  | nil => intro st h; exact h
  | cons c rest ih =>
    intro st h
    show (foldNotify rest now (notifyRateLimit st c.fst now c.snd "")).affected_threads = 1
    apply ih
    unfold notifyRateLimit
    by_cases hg : notifyShouldUpdate st (now + c.snd) = true
    · simp [hg]
    · simp only [Bool.not_eq_true] at hg
      simp [hg, h]

theorem foldr_max_add :
    ∀ (ws : List Nat) (now b : Nat),
      (ws.map (fun w => now + w)).foldr max (now + b) = now + ws.foldr max b := by
  intro ws
  induction ws with
  | nil => intro now b; rfl
  | cons w rest ih =>
    intro now b
    simp only [List.map_cons, List.foldr_cons, ih]
    omega

theorem foldr_max_absorb :
    ∀ (l : List Nat) (a : Nat), max a (l.foldr max 0) = l.foldr max a := by
  intro l
  induction l with
  | nil => intro a; simp
  | cons w rest ih =>
    intro a
    simp only [List.foldr_cons, ← ih a]
    omega

end Coordinator

/-- C4: concurrent rate-limit notifications converge on a single deadline.
(1) For any nonempty burst of `notify_rate_limit` calls observing the same
`now` with wait times `w1..wN`, the final shared deadline is
`now + max(w1..wN)`.  (2) From a waiting state with deadline `u`, a call
whose `now + w` is later than `u` installs its own deadline, wait time and
trigger id; one whose `now + w` is not later leaves the state untouched
(an earlier deadline never shortens an in-flight wait).  (3) Inside
`wait_for_rate_limit_completion`, a caller that is not the recorded
trigger leaves the state unchanged, and the recorded trigger — after its
sleep — resets the shared state to the dataclass default. -/
theorem claim_C4_coordinated_deadline :
    (∀ (now : Nat) (c0 : String × Nat) (calls : List (String × Nat)),
      (Coordinator.foldNotify (c0 :: calls) now
        Coordinator.RateLimitState.default).wait_until =
        some (now + ((c0 :: calls).map Prod.snd).foldr max 0)) ∧
    (∀ (st : Coordinator.RateLimitState) (tid msg : String) (now w u : Nat),
      st.is_waiting = true → st.wait_until = some u →
      (u < now + w →
        Coordinator.notifyRateLimit st tid now w msg =
          ⟨true, some (now + w), w, 1, some tid, some msg⟩) ∧
      (now + w ≤ u → Coordinator.notifyRateLimit st tid now w msg = st)) ∧
    (∀ (st : Coordinator.RateLimitState) (tid : String) (now : Nat),
      (st.trigger_thread_id ≠ some tid →
        Coordinator.waitForRateLimitCompletion st tid now = st) ∧
      (st.is_waiting = true → st.wait_until.isSome = true →
        st.trigger_thread_id = some tid →
        Coordinator.waitForRateLimitCompletion st tid now =
          Coordinator.RateLimitState.default)) := by
  refine ⟨?_, ?_, ?_⟩
  · intro now c0 calls
    have hfirst : Coordinator.notifyRateLimit Coordinator.RateLimitState.default
        c0.fst now c0.snd "" =
        ⟨true, some (now + c0.snd), c0.snd, 1, some c0.fst, some ""⟩ := rfl
    show (Coordinator.foldNotify calls now
      (Coordinator.notifyRateLimit Coordinator.RateLimitState.default
        c0.fst now c0.snd "")).wait_until = _
    rw [hfirst, Coordinator.foldNotify_wait_until now calls _ (now + c0.snd) rfl rfl]
    have hmap : calls.map (fun c => now + c.snd) =
        (calls.map Prod.snd).map (fun w => now + w) := by
      rw [List.map_map]
      rfl
    rw [hmap]
    have h1 : max (now + c0.snd) (((calls.map Prod.snd).map (fun w => now + w)).foldr max 0) =
        ((calls.map Prod.snd).map (fun w => now + w)).foldr max (now + c0.snd) :=
      Coordinator.foldr_max_absorb _ _
    rw [h1, Coordinator.foldr_max_add]
    simp only [List.map_cons, List.foldr_cons]
    rw [Coordinator.foldr_max_absorb]
  · intro st tid msg now w u hw hu
    constructor
    · intro hlt
      unfold Coordinator.notifyRateLimit Coordinator.notifyShouldUpdate
      rw [hu]
      simp [hlt]
    · intro hle
      unfold Coordinator.notifyRateLimit Coordinator.notifyShouldUpdate
      rw [hu]
      have : ¬(u < now + w) := by omega
      simp [hw, this]
  · intro st tid now
    constructor
    · intro hne
      unfold Coordinator.waitForRateLimitCompletion
      cases hwu : st.wait_until with
      | none => cases hst : st.is_waiting <;> simp
      | some u =>
        cases hst : st.is_waiting with
        | false => simp
        | true => simp [hne]
    · intro hw hwu htr
      unfold Coordinator.waitForRateLimitCompletion
      cases hwu' : st.wait_until with
      | none => rw [hwu'] at hwu; cases hwu
      | some u => simp [hw, htr]

/-- Witness for C4: a two-task burst (waits 2 and 1 at `now = 0`) yields
deadline 2; a later notification replaces a deadline of 5 by 7 and an
earlier one leaves it; only the recorded trigger's completion call resets
the state. -/
theorem claim_C4_coordinated_deadline_witness :
    (Coordinator.foldNotify [("t1", 2), ("t2", 1)] 0
      Coordinator.RateLimitState.default).wait_until =
      some (0 + (([("t1", 2), ("t2", 1)].map Prod.snd).foldr max 0)) ∧
    Coordinator.notifyRateLimit
      ⟨true, some 5, 5, 1, some "t1", some "m"⟩ "t2" 0 7 "m2" =
      ⟨true, some 7, 7, 1, some "t2", some "m2"⟩ ∧
    Coordinator.notifyRateLimit
      ⟨true, some 5, 5, 1, some "t1", some "m"⟩ "t3" 0 3 "m3" =
      ⟨true, some 5, 5, 1, some "t1", some "m"⟩ ∧
    Coordinator.waitForRateLimitCompletion
      ⟨true, some 5, 5, 1, some "t1", some "m"⟩ "t2" 9 =
      ⟨true, some 5, 5, 1, some "t1", some "m"⟩ ∧
    Coordinator.waitForRateLimitCompletion
      ⟨true, some 5, 5, 1, some "t1", some "m"⟩ "t1" 9 =
      Coordinator.RateLimitState.default :=
  ⟨claim_C4_coordinated_deadline.1 0 ("t1", 2) [("t2", 1)],
    (claim_C4_coordinated_deadline.2.1 ⟨true, some 5, 5, 1, some "t1", some "m"⟩
      "t2" "m2" 0 7 5 rfl rfl).1 (by decide),
    (claim_C4_coordinated_deadline.2.1 ⟨true, some 5, 5, 1, some "t1", some "m"⟩
      "t3" "m3" 0 3 5 rfl rfl).2 (by decide),
    (claim_C4_coordinated_deadline.2.2 ⟨true, some 5, 5, 1, some "t1", some "m"⟩
      "t2" 9).1 (by decide),
    (claim_C4_coordinated_deadline.2.2 ⟨true, some 5, 5, 1, some "t1", some "m"⟩
      "t1" 9).2 rfl rfl rfl⟩

/-- Counterexample to C8 as stated: two tasks each call
`notify_rate_limit` once (waits 1 then 2 at `now = 0`), yet the
affected-task counter ends at 1, not 2 — `notify_rate_limit` sets the
counter to 1 when it updates and never increments it. -/
theorem claim_C8_counterexample :
    (Coordinator.notifyRateLimit
      (Coordinator.notifyRateLimit Coordinator.RateLimitState.default "t1" 0 1 "r1")
      "t2" 0 2 "r2").affected_threads = 1 ∧ (1 : Nat) ≠ 2 :=
  ⟨rfl, by decide⟩

/-- C8 (amended): a `notify_rate_limit` call that starts or extends the
wait sets `affected_threads` to 1 (counting only the detecting task) and
records the caller as trigger; a call that does not extend the wait leaves
the shared state untouched.  The counter is incremented only by passive
waiters inside `check_and_wait_if_needed`, so after any nonempty burst of
`notify_rate_limit` calls the counter is 1, however many tasks called. -/
theorem claim_C8_notify_counter_amended :
    (∀ (st : Coordinator.RateLimitState) (tid msg : String) (now w : Nat),
      Coordinator.notifyShouldUpdate st (now + w) = true →
      Coordinator.notifyRateLimit st tid now w msg =
        ⟨true, some (now + w), w, 1, some tid, some msg⟩) ∧
    (∀ (st : Coordinator.RateLimitState) (tid msg : String) (now w : Nat),
      Coordinator.notifyShouldUpdate st (now + w) = false →
      Coordinator.notifyRateLimit st tid now w msg = st) ∧
    (∀ (st : Coordinator.RateLimitState) (tid : String) (now u : Nat),
      st.is_waiting = true → st.wait_until = some u → now < u →
      Coordinator.checkAndWaitIfNeeded st tid now =
        ({ st with affected_threads := st.affected_threads + 1 }, true)) ∧
    (∀ (now : Nat) (c0 : String × Nat) (calls : List (String × Nat)),
      (Coordinator.foldNotify (c0 :: calls) now
        Coordinator.RateLimitState.default).affected_threads = 1) := by
  refine ⟨?_, ?_, ?_, ?_⟩
  · intro st tid msg now w hg
    unfold Coordinator.notifyRateLimit
    simp [hg]
  · intro st tid msg now w hg
    unfold Coordinator.notifyRateLimit
    simp [hg]
  · intro st tid now u hw hu hlt
    unfold Coordinator.checkAndWaitIfNeeded
    rw [hu]
    simp [hw, hlt]
  · intro now c0 calls
    show (Coordinator.foldNotify calls now
      (Coordinator.notifyRateLimit Coordinator.RateLimitState.default
        c0.fst now c0.snd "")).affected_threads = 1
    exact Coordinator.foldNotify_affected now calls _ rfl

/-- Witness for the amended C8 at concrete states. -/
theorem claim_C8_notify_counter_amended_witness :
    Coordinator.notifyRateLimit Coordinator.RateLimitState.default "t1" 0 4 "m" =
      ⟨true, some 4, 4, 1, some "t1", some "m"⟩ ∧
    Coordinator.notifyRateLimit ⟨true, some 9, 9, 1, some "t0", some "m0"⟩ "t1" 0 4 "m" =
      ⟨true, some 9, 9, 1, some "t0", some "m0"⟩ ∧
    Coordinator.checkAndWaitIfNeeded ⟨true, some 9, 9, 1, some "t0", some "m0"⟩ "t1" 3 =
      (⟨true, some 9, 9, 2, some "t0", some "m0"⟩, true) ∧
    (Coordinator.foldNotify [("t1", 1), ("t2", 2), ("t3", 3)] 0
      Coordinator.RateLimitState.default).affected_threads = 1 :=
  ⟨claim_C8_notify_counter_amended.1 Coordinator.RateLimitState.default "t1" "m" 0 4 rfl,
    claim_C8_notify_counter_amended.2.1 ⟨true, some 9, 9, 1, some "t0", some "m0"⟩
      "t1" "m" 0 4 rfl,
    claim_C8_notify_counter_amended.2.2.1 ⟨true, some 9, 9, 1, some "t0", some "m0"⟩
      "t1" 3 9 rfl rfl (by decide),
    claim_C8_notify_counter_amended.2.2.2 0 ("t1", 1) [("t2", 2), ("t3", 3)]⟩

namespace WorkerSizer

/-- The image file types treated as CPU-heavy by
`_determine_optimal_workers`. -/
def imageTypes : List String := ["png", "jpg", "jpeg", "bmp", "tiff", "tif", "heic"]

/-- Python's `str.lower()` applied character-wise (ASCII suffices for the
file-type strings involved). -/
def pyLower (s : String) : String := ⟨s.data.map Char.toLower⟩

/-- Image count: the sum over the type histogram of the counts whose
lowercased key lies in `image_types`. -/
def imageCountOf (fileTypes : List String) : Nat :=
  (fileTypes.filter (fun t => imageTypes.contains (pyLower t))).length

/-- PDF count: `type_counter.get("pdf", 0)` — the exact key `"pdf"`. -/
def pdfCountOf (fileTypes : List String) : Nat :=
  (fileTypes.filter (fun t => t == "pdf")).length

/-- `_determine_optimal_workers` over the documents' `file_type` list.
`cpu_count` (read from `multiprocessing.cpu_count()`) is a parameter.
The float comparisons `image_ratio > 0.5` and `pdf_ratio > 0.7` are
embedded as the exact rational tests `2*imageCount > total` and
`10*pdfCount > 7*total`, which agree with the correctly-rounded float
divisions for every feasible file count.  Logging aside, the function is
pure. -/
def determineOptimalWorkers (fileTypes : List String)
    (requestedWorkers cpuCount : Nat) : Nat :=
  if fileTypes.isEmpty then 1
  else
    let totalFiles := fileTypes.length
    let optimalWorkers :=
      if 2 * imageCountOf fileTypes > totalFiles then
        min (min (cpuCount / 2) totalFiles) 4
      else if 10 * pdfCountOf fileTypes > 7 * totalFiles then
        min (min (cpuCount / 2) totalFiles) 6
      else min (min cpuCount totalFiles) requestedWorkers
    max 1 optimalWorkers

end WorkerSizer

/-- C5: the worker-sizing function, for every non-empty document list,
returns `min(cpuCount/2, fileCount, 4)` (with the floor of 1) when the
image fraction exceeds 0.5, else `min(cpuCount/2, fileCount, 6)` when the
PDF fraction exceeds 0.7, else `min(cpuCount, fileCount, requested)`, and
is at least 1 in every case. -/
theorem claim_C5_worker_sizer (fileTypes : List String) (req cpu : Nat)
    (hne : fileTypes ≠ []) :
    (2 * WorkerSizer.imageCountOf fileTypes > fileTypes.length →
      WorkerSizer.determineOptimalWorkers fileTypes req cpu =
        max 1 (min (min (cpu / 2) fileTypes.length) 4)) ∧
    (¬(2 * WorkerSizer.imageCountOf fileTypes > fileTypes.length) →
      10 * WorkerSizer.pdfCountOf fileTypes > 7 * fileTypes.length →
      WorkerSizer.determineOptimalWorkers fileTypes req cpu =
        max 1 (min (min (cpu / 2) fileTypes.length) 6)) ∧
    (¬(2 * WorkerSizer.imageCountOf fileTypes > fileTypes.length) →
      ¬(10 * WorkerSizer.pdfCountOf fileTypes > 7 * fileTypes.length) →
      WorkerSizer.determineOptimalWorkers fileTypes req cpu =
        max 1 (min (min cpu fileTypes.length) req)) ∧
    1 ≤ WorkerSizer.determineOptimalWorkers fileTypes req cpu := by
  have hempty : fileTypes.isEmpty = false := by
    cases fileTypes with
    | nil => exact absurd rfl hne
    | cons _ _ => rfl
  refine ⟨?_, ?_, ?_, ?_⟩
  · intro himg
    simp only [WorkerSizer.determineOptimalWorkers, hempty, Bool.false_eq_true,
      if_false]
    rw [if_pos himg]
  · intro himg hpdf
    simp only [WorkerSizer.determineOptimalWorkers, hempty, Bool.false_eq_true,
      if_false]
    rw [if_neg himg, if_pos hpdf]
  · intro himg hpdf
    simp only [WorkerSizer.determineOptimalWorkers, hempty, Bool.false_eq_true,
      if_false]
    rw [if_neg himg, if_neg hpdf]
  · simp only [WorkerSizer.determineOptimalWorkers, hempty, Bool.false_eq_true,
      if_false]
    exact le_max_left 1 _

/-- Witness for C5 at the spec's two examples: a 10-file set with image
fraction 0.6 and `cpuCount = 8` yields `min(4, 10, 4) = 4`; a 20-file
plain-text set with `cpuCount = 8` and `requested = 3` yields 3. -/
theorem claim_C5_worker_sizer_witness :
    WorkerSizer.determineOptimalWorkers
      ["png", "png", "png", "jpg", "jpg", "jpg", "txt", "txt", "txt", "txt"] 10 8 =
      max 1 (min (min (8 / 2) 10) 4) ∧
    WorkerSizer.determineOptimalWorkers (List.replicate 20 "txt") 3 8 =
      max 1 (min (min 8 20) 3) ∧
    WorkerSizer.determineOptimalWorkers
      ["png", "png", "png", "jpg", "jpg", "jpg", "txt", "txt", "txt", "txt"] 10 8 = 4 ∧
    WorkerSizer.determineOptimalWorkers (List.replicate 20 "txt") 3 8 = 3 :=
  ⟨(claim_C5_worker_sizer
      ["png", "png", "png", "jpg", "jpg", "jpg", "txt", "txt", "txt", "txt"] 10 8
      (by decide)).1 (by decide),
    (claim_C5_worker_sizer (List.replicate 20 "txt") 3 8 (by decide)).2.2.1
      (by decide) (by decide),
    by decide, by decide⟩

namespace Retry

/-- Classified outcome of one `client.add_episode` attempt, matching the
`except` clauses of `GraphitiEpisodeRepository.save`: `RateLimitError`;
an `IndexError` whose text contains "list index out of range" (the
transient Graphiti entity-conflict condition); any other `IndexError`;
any other exception. -/
inductive AttemptOutcome where
  | ok
  | rateLimited
  | conflict
  | indexOther
  | fatal
deriving DecidableEq, Repr

/-- The error re-raised out of `save`. -/
inductive SaveError where
  | rateLimited
  | conflict
  | indexOther
  | fatal
deriving DecidableEq, Repr

/-- Trace of one `save` call: final result, the `asyncio.sleep` back-off
durations of the conflict branch in order, the number of coordinated
rate-limit waits taken, and the final values of the two call-local retry
counters. -/
structure SaveTrace where
  result : Except SaveError Unit
  conflictSleeps : List Nat
  rateLimitWaits : Nat
  rateLimitAttempts : Nat
  indexErrorAttempts : Nat
deriving Repr

/-- The `while True` retry loop of `GraphitiEpisodeRepository.save`:
a rate-limit error below the cap notifies the coordinator, waits, and
increments `rate_limit_attempts`; a conflict below the cap sleeps
`2 ** index_error_attempts` seconds and increments that counter; at the
cap either error is re-raised; other index errors and all other
exceptions re-raise immediately.  `script` is the sink's outcome sequence
(one entry per attempt); `none` means the script ran out. -/
def saveLoop (maxRetries : Nat) (rl ix : Nat) (sleeps : List Nat)
    (rlWaits : Nat) : List AttemptOutcome → Option SaveTrace
  | [] => none
  | .ok :: _ => some ⟨.ok (), sleeps, rlWaits, rl, ix⟩
  | .rateLimited :: rest =>
    if rl < maxRetries then saveLoop maxRetries (rl + 1) ix sleeps (rlWaits + 1) rest
    else some ⟨.error .rateLimited, sleeps, rlWaits, rl, ix⟩
  | .conflict :: rest =>
    if ix < maxRetries then
      saveLoop maxRetries rl (ix + 1) (sleeps ++ [2 ^ ix]) rlWaits rest
    else some ⟨.error .conflict, sleeps, rlWaits, rl, ix⟩
  | .indexOther :: _ => some ⟨.error .indexOther, sleeps, rlWaits, rl, ix⟩
  | .fatal :: _ => some ⟨.error .fatal, sleeps, rlWaits, rl, ix⟩

/-- `GraphitiEpisodeRepository.save`: `rate_limit_attempts` and
`index_error_attempts` are local variables initialised to 0 on every
call. -/
def save (maxRetries : Nat) (script : List AttemptOutcome) : Option SaveTrace :=
  saveLoop maxRetries 0 0 [] 0 script

/-- The per-unit registration loop of phase 2, one `save` call per unit,
each with its own script. -/
def saveMany (maxRetries : Nat) : List (List AttemptOutcome) → List (Option SaveTrace)
  | [] => []
  | s :: rest => save maxRetries s :: saveMany maxRetries rest

theorem saveLoop_conflict_ok (m : Nat) :
    ∀ (k rl ix : Nat) (sleeps : List Nat) (rlw : Nat), ix + k ≤ m →
      saveLoop m rl ix sleeps rlw (List.replicate k .conflict ++ [.ok]) =
        some ⟨.ok (), sleeps ++ (List.range k).map (fun j => 2 ^ (ix + j)), rlw, rl, ix + k⟩ := by
  intro k
  induction k with
  | zero =>
    intro rl ix sleeps rlw _
    simp [saveLoop]
  | succ k ih =>
    intro rl ix sleeps rlw hle
    have hix : ix < m := by omega
    show saveLoop m rl ix sleeps rlw (.conflict :: (List.replicate k .conflict ++ [.ok])) = _
    rw [saveLoop]
    simp only [hix, if_true]
    rw [ih rl (ix + 1) (sleeps ++ [2 ^ ix]) rlw (by omega)]
    have hfun : ((fun j => 2 ^ (ix + j)) ∘ Nat.succ) = (fun j => 2 ^ (ix + 1 + j)) := by
      funext j
      have : ix + (j + 1) = ix + 1 + j := by omega
      simp [Function.comp, Nat.succ_eq_add_one, this]
    have hrange : (List.range (k + 1)).map (fun j => 2 ^ (ix + j)) =
        2 ^ (ix + 0) :: (List.range k).map (fun j => 2 ^ (ix + 1 + j)) := by
      rw [List.range_succ_eq_map, List.map_cons, List.map_map, hfun]
    have hlist : (sleeps ++ [2 ^ ix]) ++ (List.range k).map (fun j => 2 ^ (ix + 1 + j)) =
        sleeps ++ (List.range (k + 1)).map (fun j => 2 ^ (ix + j)) := by
      rw [hrange, List.append_assoc]
      simp
    have harith : ix + 1 + k = ix + (k + 1) := by omega
    rw [hlist, harith]

theorem saveLoop_conflict_exhausted (m : Nat) :
    ∀ (k rl ix : Nat) (sleeps : List Nat) (rlw : Nat), ix + k = m →
      saveLoop m rl ix sleeps rlw (List.replicate (k + 1) .conflict) =
        some ⟨.error .conflict, sleeps ++ (List.range k).map (fun j => 2 ^ (ix + j)), rlw, rl, m⟩ := by
  intro k
  induction k with
  | zero =>
    intro rl ix sleeps rlw heq
    show saveLoop m rl ix sleeps rlw (.conflict :: []) = _
    rw [saveLoop]
    have hix : ¬ix < m := by omega
    simp only [hix, if_false, List.range_zero, List.map_nil, List.append_nil]
    rw [show ix = m from by omega]
  | succ k ih =>
    intro rl ix sleeps rlw heq
    have hix : ix < m := by omega
    show saveLoop m rl ix sleeps rlw (.conflict :: List.replicate (k + 1) .conflict) = _
    rw [saveLoop]
    simp only [hix, if_true]
    rw [ih rl (ix + 1) (sleeps ++ [2 ^ ix]) rlw (by omega)]
    have hfun : ((fun j => 2 ^ (ix + j)) ∘ Nat.succ) = (fun j => 2 ^ (ix + 1 + j)) := by
      funext j
      have : ix + (j + 1) = ix + 1 + j := by omega
      simp [Function.comp, Nat.succ_eq_add_one, this]
    have hrange : (List.range (k + 1)).map (fun j => 2 ^ (ix + j)) =
        2 ^ (ix + 0) :: (List.range k).map (fun j => 2 ^ (ix + 1 + j)) := by
      rw [List.range_succ_eq_map, List.map_cons, List.map_map, hfun]
    have hlist : (sleeps ++ [2 ^ ix]) ++ (List.range k).map (fun j => 2 ^ (ix + 1 + j)) =
        sleeps ++ (List.range (k + 1)).map (fun j => 2 ^ (ix + j)) := by
      rw [hrange, List.append_assoc]
      simp
    rw [hlist]

theorem saveLoop_rateLimited_skip (m : Nat) :
    ∀ (a rl ix : Nat) (sleeps : List Nat) (rlw : Nat) (rest : List AttemptOutcome),
      rl + a ≤ m →
      saveLoop m rl ix sleeps rlw (List.replicate a .rateLimited ++ rest) =
        saveLoop m (rl + a) ix sleeps (rlw + a) rest := by
  intro a
  induction a with
  | zero =>
    intro rl ix sleeps rlw rest _
    simp
  | succ a ih =>
    intro rl ix sleeps rlw rest hle
    have hrl : rl < m := by omega
    show saveLoop m rl ix sleeps rlw (.rateLimited :: (List.replicate a .rateLimited ++ rest)) = _
    rw [saveLoop]
    simp only [hrl, if_true]
    rw [ih (rl + 1) ix sleeps (rlw + 1) rest (by omega)]
    congr 1 <;> omega

end Retry

/-- C6: on the transient-conflict error a single-unit `save` call retries
with an independent exponential back-off of `2^attempt` seconds, the
attempt counter starting at 0; a script of `k ≤ maxRetries` conflicts
followed by success sleeps exactly `2^0, …, 2^(k-1)` seconds and
succeeds; `maxRetries + 1` consecutive conflicts sleep `2^0, …,
2^(maxRetries-1)` and then re-raise.  The rate-limit counter and the
conflict counter are separate — `a` rate-limit errors consume none of the
conflict budget and the final trace records each counter independently —
and both are reset for each single-unit `save` call, every unit of
`saveMany` running `save` on its own script with fresh counters. -/
theorem claim_C6_conflict_backoff (m k a : Nat) (hk : k ≤ m) (ha : a ≤ m) :
    Retry.save m (List.replicate k .conflict ++ [.ok]) =
      some ⟨.ok (), (List.range k).map (fun j => 2 ^ j), 0, 0, k⟩ ∧
    Retry.save m (List.replicate (m + 1) .conflict) =
      some ⟨.error .conflict, (List.range m).map (fun j => 2 ^ j), 0, 0, m⟩ ∧
    Retry.save m (List.replicate a .rateLimited ++
        (List.replicate k .conflict ++ [.ok])) =
      some ⟨.ok (), (List.range k).map (fun j => 2 ^ j), a, a, k⟩ ∧
    ∀ scripts, Retry.saveMany m scripts = scripts.map (Retry.save m) := by
  refine ⟨?_, ?_, ?_, ?_⟩
  · have h := Retry.saveLoop_conflict_ok m k 0 0 [] 0 (by omega)
    simpa using h
  · have h := Retry.saveLoop_conflict_exhausted m m 0 0 [] 0 (by omega)
    simpa using h
  · unfold Retry.save
    rw [Retry.saveLoop_rateLimited_skip m a 0 0 [] 0 _ (by omega)]
    have h := Retry.saveLoop_conflict_ok m k a 0 [] a (by omega)
    simpa using h
  · intro scripts
    induction scripts with
    | nil => rfl
    | cons s rest ih => simp [Retry.saveMany, ih]

/-- Witness for C6 with `maxRetries = 3`: two conflicts then success
sleeps 1 and 2 seconds; four consecutive conflicts sleep 1, 2, 4 seconds
and re-raise; one rate-limit error plus two conflicts then success keeps
the counters at 1 and 2 respectively. -/
theorem claim_C6_conflict_backoff_witness :
    Retry.save 3 (List.replicate 2 .conflict ++ [.ok]) =
      some ⟨.ok (), (List.range 2).map (fun j => 2 ^ j), 0, 0, 2⟩ ∧
    Retry.save 3 (List.replicate 4 .conflict) =
      some ⟨.error .conflict, (List.range 3).map (fun j => 2 ^ j), 0, 0, 3⟩ ∧
    Retry.save 3 (List.replicate 1 .rateLimited ++
        (List.replicate 2 .conflict ++ [.ok])) =
      some ⟨.ok (), (List.range 2).map (fun j => 2 ^ j), 1, 1, 2⟩ ∧
    Retry.saveMany 3 [List.replicate 4 .conflict, List.replicate 2 .conflict ++ [.ok]] =
      [List.replicate 4 .conflict, List.replicate 2 .conflict ++ [.ok]].map (Retry.save 3) :=
  ⟨(claim_C6_conflict_backoff 3 2 1 (by decide) (by decide)).1,
    (claim_C6_conflict_backoff 3 2 1 (by decide) (by decide)).2.1,
    (claim_C6_conflict_backoff 3 2 1 (by decide) (by decide)).2.2.1,
    (claim_C6_conflict_backoff 3 2 1 (by decide) (by decide)).2.2.2
      [List.replicate 4 .conflict, List.replicate 2 .conflict ++ [.ok]]⟩

namespace FileMove

/-- A filesystem path, as its components. -/
abbrev FPath := List String

/-- Lookup in the source tree (path ↦ file content). -/
def lookupP : List (FPath × String) → FPath → Option String
  | [], _ => none
  | p :: rest, k => if p.fst = k then some p.snd else lookupP rest k

/-- A file disappearing (the `shutil.move` source side). -/
def eraseP (m : List (FPath × String)) (k : FPath) : List (FPath × String) :=
  m.filter (fun p => p.fst ≠ k)

/-- A file appearing (the `shutil.move` destination side; an existing file
at the same path is overwritten, per `os.rename` semantics). -/
def insertP (m : List (FPath × String)) (k : FPath) (v : String) :
    List (FPath × String) :=
  (k, v) :: eraseP m k

theorem lookupP_eraseP_ne (m : List (FPath × String)) (k k' : FPath)
    (h : k ≠ k') : lookupP (eraseP m k) k' = lookupP m k' := by
  induction m with
  | nil => rfl
  | cons p rest ih =>
    by_cases hp : p.fst = k
    · have hdrop : eraseP (p :: rest) k = eraseP rest k := by
        simp [eraseP, List.filter, hp]
      have h2 : p.fst ≠ k' := by rw [hp]; exact h
      rw [hdrop, ih]
      simp [lookupP, h2]
    · have hkeep : eraseP (p :: rest) k = p :: eraseP rest k := by
        simp [eraseP, List.filter, hp]
      rw [hkeep]
      by_cases hq : p.fst = k'
      · simp [lookupP, hq]
      · simp [lookupP, hq, ih]

theorem lookupP_insertP_self (m : List (FPath × String)) (k : FPath) (v : String) :
    lookupP (insertP m k v) k = some v := by
  simp [insertP, lookupP]

theorem lookupP_insertP_ne (m : List (FPath × String)) (k k' : FPath) (v : String)
    (h : k ≠ k') : lookupP (insertP m k v) k' = lookupP m k' := by
  simp only [insertP, lookupP, h, if_neg]
  exact lookupP_eraseP_ne m k k' h

/-- Index of the last `'.'` in the character list (`str.rfind('.')`). -/
def lastDotIdx (cs : List Char) : Option Nat :=
  (List.range cs.length).foldl
    (fun acc i => if cs.get? i = some '.' then some i else acc) none

/-- `PurePath.suffix`: `name[i:]` for `i = name.rfind('.')` when
`0 < i < len(name) - 1`, else the empty string. -/
def pySuffix (name : String) : String :=
  match lastDotIdx name.data with
  | some i => if 0 < i ∧ i < name.data.length - 1 then ⟨name.data.drop i⟩ else ""
  | none => ""

/-- `PurePath.stem`: the final component without its suffix. -/
def pyStem (name : String) : String :=
  ⟨name.data.take (name.data.length - (pySuffix name).data.length)⟩

/-- The collision-avoiding name `f"{stem}_{timestamp}{suffix}"`. -/
def suffixedName (name timestamp : String) : String :=
  pyStem name ++ "_" ++ timestamp ++ pySuffix name

inductive MoveError where
  | sourceNotFound
deriving DecidableEq, Repr

/-- `FileSystemDocumentReader.move_file`: raises when the source is
missing; computes the destination by re-rooting the source's path
relative to `base_directory` under the destination directory (falling
back to the bare file name when the source is not under the base);
creates parent directories (implicit here); on a name collision at the
destination switches to the timestamp-suffixed name; then moves the file.
The pruning of now-empty source directories tracks no file content and is
not modelled. -/
def moveFile (baseDirectory : Option FPath) (store : List (FPath × String))
    (sourcePath destDir : FPath) (timestamp : String) :
    Except MoveError (List (FPath × String) × FPath) :=
  match lookupP store sourcePath with
  | none => .error .sourceNotFound
  | some content =>
    let name := sourcePath.getLastD ""
    let destination :=
      match baseDirectory with
      | some base =>
        if base.isPrefixOf sourcePath then destDir ++ sourcePath.drop base.length
        else destDir ++ [name]
      | none => destDir ++ [name]
    let finalDest :=
      if (lookupP store destination).isSome then
        destination.dropLast ++ [suffixedName (destination.getLastD "") timestamp]
      else destination
    .ok (insertP (eraseP store sourcePath) finalDest content, finalDest)

theorem pySuffix_length_le (name : String) :
    (pySuffix name).data.length ≤ name.data.length := by
  unfold pySuffix
  cases lastDotIdx name.data with
  | none => exact Nat.zero_le _
  | some i =>
    show (if 0 < i ∧ i < name.data.length - 1 then (⟨name.data.drop i⟩ : String)
      else "").data.length ≤ name.data.length
    by_cases h : 0 < i ∧ i < name.data.length - 1
    · rw [if_pos h]
      show (name.data.drop i).length ≤ name.data.length
      rw [List.length_drop]
      omega
    · rw [if_neg h]
      exact Nat.zero_le _

theorem suffixedName_ne (name timestamp : String) :
    suffixedName name timestamp ≠ name := by
  intro h
  have hlen : (suffixedName name timestamp).data.length = name.data.length := by
    rw [h]
  have hsuffle := pySuffix_length_le name
  have hd : (suffixedName name timestamp).data =
      (pyStem name).data ++ "_".data ++ timestamp.data ++ (pySuffix name).data := rfl
  have hstem : (pyStem name).data.length =
      name.data.length - (pySuffix name).data.length := by
    show (name.data.take (name.data.length - (pySuffix name).data.length)).length = _
    rw [List.length_take]
    omega
  rw [hd] at hlen
  simp only [List.length_append, List.length_cons, List.length_nil] at hlen
  have : "_".data.length = 1 := rfl
  omega

theorem isPrefixOf_append (l t : List String) : (l.isPrefixOf (l ++ t)) = true := by
  induction l with
  | nil => simp [List.isPrefixOf]
  | cons x rest ih => simp [List.isPrefixOf, ih]

theorem dropLast_append_getLastD (d : String) (l : List String) (h : l ≠ []) :
    l.dropLast ++ [l.getLastD d] = l := by
  rw [List.getLastD_eq_getLast?, List.getLast?_eq_getLast l h]
  simp only [Option.getD_some]
  exact List.dropLast_append_getLast h

/-- Computation of `move_file` for a source under the base directory: the
destination is the source re-rooted under the destination directory, with
the timestamp-suffixed fallback on collision. -/
theorem moveFile_eq (store : List (FPath × String)) (base rel destDir : FPath)
    (ts content : String) (hsrc : lookupP store (base ++ rel) = some content) :
    moveFile (some base) store (base ++ rel) destDir ts =
      .ok (insertP (eraseP store (base ++ rel))
        (if (lookupP store (destDir ++ rel)).isSome then
          (destDir ++ rel).dropLast ++
            [suffixedName ((destDir ++ rel).getLastD "") ts]
        else destDir ++ rel) content,
        (if (lookupP store (destDir ++ rel)).isSome then
          (destDir ++ rel).dropLast ++
            [suffixedName ((destDir ++ rel).getLastD "") ts]
        else destDir ++ rel)) := by
  unfold moveFile
  rw [hsrc]
  have hpre := isPrefixOf_append base rel
  simp only [hpre, if_true, List.drop_left]

end FileMove

/-- C7: with `base_directory = base`, moving `base ++ rel` into `destDir`
preserves the path relative to the base: the file lands at
`destDir ++ rel` when that path is free.  When a file already exists at
that destination, the move lands at the timestamp-suffixed sibling name,
which differs from the destination, the pre-existing file's content there
is untouched (never overwritten), and the call still returns successfully
(never fails because of the collision). -/
theorem claim_C7_move_file (store : List (FileMove.FPath × String))
    (base rel destDir : FileMove.FPath) (timestamp content : String)
    (hrel : rel ≠ [])
    (hsrc : FileMove.lookupP store (base ++ rel) = some content)
    (hneq : base ++ rel ≠ destDir ++ rel) :
    (FileMove.lookupP store (destDir ++ rel) = none →
      FileMove.moveFile (some base) store (base ++ rel) destDir timestamp =
        .ok (FileMove.insertP (FileMove.eraseP store (base ++ rel))
          (destDir ++ rel) content, destDir ++ rel)) ∧
    (∀ c2, FileMove.lookupP store (destDir ++ rel) = some c2 →
      FileMove.moveFile (some base) store (base ++ rel) destDir timestamp =
        .ok (FileMove.insertP (FileMove.eraseP store (base ++ rel))
          ((destDir ++ rel).dropLast ++
            [FileMove.suffixedName ((destDir ++ rel).getLastD "") timestamp]) content,
          (destDir ++ rel).dropLast ++
            [FileMove.suffixedName ((destDir ++ rel).getLastD "") timestamp]) ∧
      (destDir ++ rel).dropLast ++
          [FileMove.suffixedName ((destDir ++ rel).getLastD "") timestamp] ≠
        destDir ++ rel ∧
      FileMove.lookupP (FileMove.insertP (FileMove.eraseP store (base ++ rel))
          ((destDir ++ rel).dropLast ++
            [FileMove.suffixedName ((destDir ++ rel).getLastD "") timestamp]) content)
        (destDir ++ rel) = some c2) := by
  have hcompute := FileMove.moveFile_eq store base rel destDir timestamp content hsrc
  have hdne : destDir ++ rel ≠ [] := by
    intro h
    exact hrel (List.append_eq_nil.mp h).2
  have hsplit : (destDir ++ rel).dropLast ++ [(destDir ++ rel).getLastD ""] =
      destDir ++ rel := FileMove.dropLast_append_getLastD "" (destDir ++ rel) hdne
  have hp2ne : (destDir ++ rel).dropLast ++
      [FileMove.suffixedName ((destDir ++ rel).getLastD "") timestamp] ≠
      destDir ++ rel := by
    intro h
    have h2 : (destDir ++ rel).dropLast ++
        [FileMove.suffixedName ((destDir ++ rel).getLastD "") timestamp] =
        (destDir ++ rel).dropLast ++ [(destDir ++ rel).getLastD ""] :=
      h.trans hsplit.symm
    have h3 := List.append_cancel_left h2
    have hname : FileMove.suffixedName ((destDir ++ rel).getLastD "") timestamp =
        (destDir ++ rel).getLastD "" := by
      injection h3
    exact FileMove.suffixedName_ne _ _ hname
  constructor
  · intro hfree
    rw [hcompute, hfree]
    rfl
  · intro c2 hcol
    have hsome : (FileMove.lookupP store (destDir ++ rel)).isSome = true := by
      rw [hcol]; rfl
    refine ⟨?_, hp2ne, ?_⟩
    · rw [hcompute, hsome]
      simp
    · rw [FileMove.lookupP_insertP_ne _ _ _ _ hp2ne,
        FileMove.lookupP_eraseP_ne _ _ _ hneq]
      exact hcol

/-- Witness for C7 on a concrete tree: `root/pending/a/b.txt` moved to
`root/in-progress` with base `root/pending` lands at
`root/in-progress/a/b.txt`; with a file already there, it lands at
`root/in-progress/a/b_20250101_000000.txt` and the existing file keeps
its content. -/
theorem claim_C7_move_file_witness :
    (FileMove.moveFile (some ["root", "pending"])
        [(["root", "pending", "a", "b.txt"], "X")]
        (["root", "pending"] ++ ["a", "b.txt"]) ["root", "in-progress"]
        "20250101_000000" =
      .ok (FileMove.insertP
          (FileMove.eraseP [(["root", "pending", "a", "b.txt"], "X")]
            (["root", "pending"] ++ ["a", "b.txt"]))
          (["root", "in-progress"] ++ ["a", "b.txt"]) "X",
        ["root", "in-progress"] ++ ["a", "b.txt"])) ∧
    (FileMove.moveFile (some ["root", "pending"])
        [(["root", "pending", "a", "b.txt"], "X"),
          (["root", "in-progress", "a", "b.txt"], "Y")]
        (["root", "pending"] ++ ["a", "b.txt"]) ["root", "in-progress"]
        "20250101_000000" =
      .ok (FileMove.insertP
          (FileMove.eraseP
            [(["root", "pending", "a", "b.txt"], "X"),
              (["root", "in-progress", "a", "b.txt"], "Y")]
            (["root", "pending"] ++ ["a", "b.txt"]))
          ((["root", "in-progress"] ++ ["a", "b.txt"]).dropLast ++
            [FileMove.suffixedName
              ((["root", "in-progress"] ++ ["a", "b.txt"]).getLastD "")
              "20250101_000000"]) "X",
        (["root", "in-progress"] ++ ["a", "b.txt"]).dropLast ++
          [FileMove.suffixedName
            ((["root", "in-progress"] ++ ["a", "b.txt"]).getLastD "")
            "20250101_000000"])) ∧
    FileMove.lookupP
      (FileMove.insertP
        (FileMove.eraseP
          [(["root", "pending", "a", "b.txt"], "X"),
            (["root", "in-progress", "a", "b.txt"], "Y")]
          (["root", "pending"] ++ ["a", "b.txt"]))
        ((["root", "in-progress"] ++ ["a", "b.txt"]).dropLast ++
          [FileMove.suffixedName
            ((["root", "in-progress"] ++ ["a", "b.txt"]).getLastD "")
            "20250101_000000"]) "X")
      (["root", "in-progress"] ++ ["a", "b.txt"]) = some "Y" ∧
    FileMove.suffixedName "b.txt" "20250101_000000" = "b_20250101_000000.txt" :=
  ⟨(claim_C7_move_file [(["root", "pending", "a", "b.txt"], "X")]
      ["root", "pending"] ["a", "b.txt"] ["root", "in-progress"]
      "20250101_000000" "X" (by decide) (by decide) (by decide)).1 (by decide),
    ((claim_C7_move_file
      [(["root", "pending", "a", "b.txt"], "X"),
        (["root", "in-progress", "a", "b.txt"], "Y")]
      ["root", "pending"] ["a", "b.txt"] ["root", "in-progress"]
      "20250101_000000" "X" (by decide) (by decide) (by decide)).2 "Y" (by decide)).1,
    (((claim_C7_move_file
      [(["root", "pending", "a", "b.txt"], "X"),
        (["root", "in-progress", "a", "b.txt"], "Y")]
      ["root", "pending"] ["a", "b.txt"] ["root", "in-progress"]
      "20250101_000000" "X" (by decide) (by decide) (by decide)).2 "Y" (by decide)).2).2,
    by decide⟩

end LocalRag
